import Mathlib

/-!
Verification of the streaming transcription pipeline (audio_extractor.py,
transcriber.py, config.py) against its natural-language specification.

The Python code is shallowly embedded: pure string classification becomes
Lean functions on strings; the stateful asynchronous loops (the FFmpeg
frame-reading loop, the websocket send/receive loops, the reconnect loop)
become executable interpreters over explicit traces of environment events
(read results, websocket events, inbound service messages), so that each
loop's observable behaviour (frames yielded, sleeps performed, callbacks
invoked, delays slept, termination reason) is a computable function of the
trace.  Times and delays are rationals.
-/

/-! ### Configuration constants (config.py) -/

def SAMPLE_RATE : Nat := 16000

def CHANNELS : Nat := 1

def CHUNK_SIZE : Nat := 8000

def BATCH_SPEED_FACTOR : Rat := 3

def RECEIVE_TIMEOUT : Rat := 30

def MAX_RECONNECT_ATTEMPTS : Nat := 5

def RECONNECT_BASE_DELAY : Rat := 1

/-! ### String helpers

Python's `str.startswith`, `str.endswith`, `needle in haystack` and the
case-insensitive regex search of `_is_youtube_url` are modelled on
character lists. -/

/-- Python's `str.strip()` with no argument: remove leading and trailing
whitespace. -/
def pyStrip (s : String) : String :=
  String.mk
    (((s.toList.dropWhile Char.isWhitespace).reverse.dropWhile
        Char.isWhitespace).reverse)

/-- Does the second list start with the first (models `str.startswith`)? -/
def firstMatches : List Char → List Char → Bool
  | [], _ => true
  | _ :: _, [] => false
  | a :: as, b :: bs => a = b && firstMatches as bs

/-- Does the second list end with the first (models `str.endswith`)? -/
def lastMatches (pat s : List Char) : Bool :=
  firstMatches pat.reverse s.reverse

/-- Does the first list occur contiguously inside the second
(models Python's `needle in haystack`)? -/
def occursIn (pat : List Char) : List Char → Bool
  | [] => firstMatches pat []
  | s@(_ :: rest) => firstMatches pat s || occursIn pat rest

/-! ### Source classification (audio_extractor.py) -/

/-- Model of `_is_youtube_url`: case-insensitive substring search for
`youtube.com` or `youtu.be` (the regex `(youtube\.com|youtu\.be)` with
`re.IGNORECASE`). -/
def is_youtube_url (source : String) : Bool :=
  occursIn ("youtube.com".toList) (source.toList.map Char.toLower)
    || occursIn ("youtu.be".toList) (source.toList.map Char.toLower)

/-- Model of `_detect_source_type`. -/
def detect_source_type (source : String) : String :=
  if firstMatches ("rtmp://".toList) source.toList then "rtmp"
  else if lastMatches (".m3u8".toList) source.toList
      || occursIn ("m3u8".toList) source.toList then "hls"
  else if source = "webcam" ∨ source = "0" ∨ source = "/dev/video0" then "webcam"
  else if is_youtube_url source then "youtube"
  else "file"

/-- Argument list built by `_build_ffmpeg_input_args`, together with whether
the external URL-resolution step (`_resolve_youtube_url`, a subprocess call)
was performed to obtain it. -/
structure InputArgs where
  args : List String
  resolvedExternally : Bool
deriving DecidableEq

/-- Model of `_build_ffmpeg_input_args`.  The external resolver
(`yt-dlp`) and the host platform are abstracted as parameters. -/
def build_ffmpeg_input_args (resolve : String → String) (isWin32 : Bool)
    (source : String) : InputArgs :=
  let source_type := detect_source_type source
  if source_type = "youtube" then ⟨["-i", resolve source], true⟩
  else if source_type = "webcam" then
    if isWin32 then ⟨["-f", "dshow", "-i", "video=Integrated Camera"], false⟩
    else ⟨["-f", "v4l2", "-i", "/dev/video0"], false⟩
  else if source_type = "rtmp" ∨ source_type = "hls" then
    ⟨["-reconnect", "1", "-reconnect_streamed", "1",
      "-reconnect_delay_max", "5", "-i", source], false⟩
  else ⟨["-i", source], false⟩

/-- Full FFmpeg command line assembled by `start_ffmpeg`. -/
def ffmpeg_cmd (resolve : String → String) (isWin32 : Bool)
    (source : String) : List String :=
  ["ffmpeg", "-fflags", "nobuffer", "-flags", "low_delay"]
    ++ (build_ffmpeg_input_args resolve isWin32 source).args
    ++ ["-f", "s16le", "-ar", toString SAMPLE_RATE, "-ac", toString CHANNELS,
        "-loglevel", "warning", "pipe:1"]

/-! ### The frame-production loop (read_audio_chunks, audio_extractor.py)

Each iteration of the `while True` loop either observes the pause flag set
(sleeps 0.05s without reading), or performs one blocking read on the
decoder's stdout.  The environment of one iteration is one `Step` of a
trace: what the pause flag held, and if a read happened, what it returned
(`readOk` also records the wall-clock processing time of the iteration,
which the loop measures for pacing).  The interpreter `readLoopAux` mirrors
the loop body and records the caller-observable history: chunks yielded,
sleeps performed (with their kind and duration), number of read calls, and
why the loop ended (`none` means the trace ran out while the loop was still
going). -/

/-- Environment of one iteration of the `read_audio_chunks` loop. -/
inductive Step where
  /-- The pause flag was observed set at the top of the iteration. -/
  | pauseSet : Step
  /-- The read returned a nonempty chunk; `elapsed` is the processing time
  of the iteration as measured by `loop.time() - t0`. -/
  | readOk (chunk : List Nat) (elapsed : Rat) : Step
  /-- The read returned zero bytes; `alive` records whether
  `process.poll()` found the decoder still running. -/
  | readEmpty (alive : Bool) : Step
  /-- The read raised an exception. -/
  | readErr : Step
deriving DecidableEq

/-- Kind of a sleep performed by the loop. -/
inductive SleepKind where
  /-- The 0.05s sleep while the pause flag is set. -/
  | pauseWait : SleepKind
  /-- The 0.01s sleep after an empty read with the decoder alive. -/
  | stallWait : SleepKind
  /-- The pacing sleep after yielding a chunk. -/
  | pacing : SleepKind
deriving DecidableEq

/-- Why the `read_audio_chunks` loop ended.  Every one of these is a
`break` in the Python code: the generator simply stops; no exception
propagates to the consumer on any of them. -/
inductive StopReason where
  /-- `break` after the read raised an exception (logged, swallowed). -/
  | readError : StopReason
  /-- `break` after more than 100 consecutive empty reads with the decoder
  alive (logged, swallowed). -/
  | stallAbort : StopReason
  /-- `break` on an empty read with the decoder exited: end of stream. -/
  | eofExit : StopReason
deriving DecidableEq

/-- Observable history of a `read_audio_chunks` run. -/
structure ReadLoopOut where
  yielded : List (List Nat)
  sleeps : List (SleepKind × Rat)
  reads : Nat
  reason : Option StopReason
deriving DecidableEq

/-- Interpreter for the body of the `read_audio_chunks` loop.  The second
argument is the running `consecutive_empty` counter. -/
def readLoopAux (target : Rat) : List Step → Nat → ReadLoopOut
  | [], _ => ⟨[], [], 0, none⟩
  | .pauseSet :: rest, ce =>
    let r := readLoopAux target rest ce
    ⟨r.yielded, (.pauseWait, 1/20) :: r.sleeps, r.reads, r.reason⟩
  | .readErr :: _, _ => ⟨[], [], 1, some .readError⟩
  | .readEmpty alive :: rest, ce =>
    if alive then
      if ce + 1 > 100 then ⟨[], [], 1, some .stallAbort⟩
      else
        let r := readLoopAux target rest (ce + 1)
        ⟨r.yielded, (.stallWait, 1/100) :: r.sleeps, r.reads + 1, r.reason⟩
    else ⟨[], [], 1, some .eofExit⟩
  | .readOk chunk elapsed :: rest, _ =>
    let r := readLoopAux target rest 0
    let pac := if target > 0 then
        (if target - elapsed > 0 then [(SleepKind.pacing, target - elapsed)] else [])
      else []
    ⟨chunk :: r.yielded, pac ++ r.sleeps, r.reads + 1, r.reason⟩

/-- The durations of the pacing sleeps of a run, in order. -/
def pacingDurations (out : ReadLoopOut) : List Rat :=
  out.sleeps.filterMap (fun s =>
    match s with
    | (SleepKind.pacing, dur) => some dur
    | _ => none)

/-- The pacing interval computed at the top of `read_audio_chunks`:
`chunk_size / (SAMPLE_RATE * 2 * CHANNELS) / speed_factor` when
`speed_factor > 0`, else `0` (pacing disabled). -/
def target_interval (chunkSize : Nat) (speed : Rat) : Rat :=
  let bytes_per_second : Rat := (SAMPLE_RATE : Rat) * 2 * (CHANNELS : Rat)
  let chunk_realtime_duration : Rat := (chunkSize : Rat) / bytes_per_second
  if speed > 0 then chunk_realtime_duration / speed else 0

/-- Model of `read_audio_chunks`, as a function of the iteration trace. -/
def read_audio_chunks (chunkSize : Nat) (speed : Rat) (steps : List Step) :
    ReadLoopOut :=
  readLoopAux (target_interval chunkSize speed) steps 0

/-! ### Chunking of the decoder's byte stream

`process.stdout.read(chunk_size)` consumes and returns the next at most
`chunk_size` bytes of the decoder's output.  `chunksOf n data` is the
sequence of chunks such a read loop obtains from a finished output `data`:
repeatedly take `n` bytes and advance, until the stream is empty.  The fuel
argument of the auxiliary function is only a termination bound; starting it
at `data.length` never exhausts it when `0 < n`. -/

def chunksOfAux (n : Nat) : Nat → List Nat → List (List Nat)
  | 0, _ => []
  | _, [] => []
  | fuel + 1, c :: cs => (c :: cs).take n :: chunksOfAux n fuel ((c :: cs).drop n)

/-- The fixed-size chunks successive `read(n)` calls return from `data`. -/
def chunksOf (n : Nat) (data : List Nat) : List (List Nat) :=
  chunksOfAux n data.length data

/-! ### The send activity (_send_audio, transcriber.py)

`_send_audio` iterates the chunks yielded by `read_audio_chunks`; before
each send it checks `_ws_is_open`, and the send itself can raise.  The
environment of the iteration handling the `i`-th chunk is `ev i`.  On a
connection-level error (`websockets.ConnectionClosed`, `ConnectionError`)
the exception is re-raised, so the epilogue (setting `_audio_done`,
sending `CloseStream`) is skipped; any other exception is logged and
swallowed, and the epilogue runs exactly as on normal exhaustion. -/

/-- What happens at the iteration consuming one chunk. -/
inductive SendEvent where
  /-- The websocket was open and the send succeeded. -/
  | sent : SendEvent
  /-- `_ws_is_open` returned false: log and `break` (chunk consumed,
  not sent). -/
  | wsClosedSkip : SendEvent
  /-- The send raised `ConnectionClosed` / `ConnectionError`: re-raised. -/
  | connErr : SendEvent
  /-- The send raised some other exception: logged and swallowed. -/
  | otherErr : SendEvent
deriving DecidableEq

/-- How the chunk-forwarding loop of `_send_audio` ended. -/
inductive SendExit where
  | exhausted : SendExit
  | brokeWsClosed : SendExit
  | swallowedErr : SendExit
  | connError : SendExit
deriving DecidableEq

/-- Caller-observable outcome of `_send_audio`. -/
structure SendOutcome where
  /-- Chunks actually delivered to the websocket, in order. -/
  sentChunks : List (List Nat)
  /-- Whether `self._audio_done.set()` was reached. -/
  audioDoneSet : Bool
  /-- Whether the `CloseStream` control message send was attempted. -/
  closeStreamSent : Bool
  /-- Whether a connection-level exception propagated out of `_send_audio`. -/
  raisedConn : Bool
deriving DecidableEq

/-- The `async for` loop of `_send_audio` over the chunk list, starting at
chunk index `i`. -/
def sendLoopAux (ev : Nat → SendEvent) : List (List Nat) → Nat →
    List (List Nat) × SendExit
  | [], _ => ([], .exhausted)
  | c :: cs, i =>
    match ev i with
    | .sent =>
      let r := sendLoopAux ev cs (i + 1)
      (c :: r.1, r.2)
    | .wsClosedSkip => ([], .brokeWsClosed)
    | .connErr => ([], .connError)
    | .otherErr => ([], .swallowedErr)

/-- Model of `_send_audio`: the loop followed by its epilogue.
`wsOpenAtEnd` is what `_ws_is_open` returns when the epilogue decides
whether to send `CloseStream`. -/
def send_audio (chunks : List (List Nat)) (ev : Nat → SendEvent)
    (wsOpenAtEnd : Bool) : SendOutcome :=
  let r := sendLoopAux ev chunks 0
  match r.2 with
  | .connError => ⟨r.1, false, false, true⟩
  | _ => ⟨r.1, true, wsOpenAtEnd, false⟩

/-- `_send_audio` fed directly with the frames the Reader produces on a
given iteration trace: the composition actually executed by the session. -/
def send_audio_from_reader (chunkSize : Nat) (speed : Rat) (steps : List Step)
    (ev : Nat → SendEvent) (wsOpenAtEnd : Bool) : SendOutcome :=
  send_audio (read_audio_chunks chunkSize speed steps).yielded ev wsOpenAtEnd

/-! ### Reads across reconnect attempts

The decoder is started once per `run()`; every `_send_audio` invocation of
every reconnect attempt reads from the same stdout pipe, whose position
only ever advances.  `run_attempts remaining specs` gives, per attempt, the
chunks it delivered: a failed attempt `(d, e)` delivers the next `d` chunks
and additionally consumes `e` further chunks that were read but lost to the
drop (`e = 1` when the drop was noticed after the read: the failed send, or
the chunk read just before `_ws_is_open` turned false; `e = 0` otherwise);
the final attempt delivers everything still unread. -/
def run_attempts : List (List Nat) → List (Nat × Nat) → List (List (List Nat))
  | remaining, [] => [remaining]
  | remaining, (d, e) :: specs =>
    remaining.take d :: run_attempts (remaining.drop (d + e)) specs

/-! ### The receive activity (_receive_transcripts, transcriber.py)

`_receive_transcripts` runs `async for message in self._ws`, so it only
executes when a message arrives; between arrivals it is blocked on the
socket.  A trace is the list of arriving messages, each with its arrival
time and the value the `_audio_done` flag holds while it is processed; the
trace ends either with the connection still open (the loop is then still
blocked waiting) or with the service closing the connection (the `async
for` raises `ConnectionClosed`).  Words are modelled by their `start`
offsets, the only field the code reads from them. -/

/-- One alternative of a `Results` message: `transcript` text and the
`start` offsets of its `words` list. -/
structure Alt where
  transcript : String
  words : List Rat
deriving DecidableEq

/-- An inbound service message, after `json.loads` and the `type` dispatch. -/
inductive InMsg where
  /-- `type == "Results"`: the `channel.alternatives` list, `is_final`,
  and the message's own `start` field (`data.get("start", 0.0)`). -/
  | results (alternatives : List Alt) (isFinal : Bool) (start : Rat) : InMsg
  /-- `type == "Metadata"`. -/
  | metadata : InMsg
  /-- Any other message type: falls through the dispatch. -/
  | other : InMsg
deriving DecidableEq

/-- One arriving message: arrival time, payload, and the value of the
`_audio_done` flag while it is processed. -/
structure RecvEvent where
  time : Rat
  msg : InMsg
  audioDone : Bool
deriving DecidableEq

/-- How the message trace ends. -/
inductive WireEnd where
  /-- No further message arrives and the connection stays open: the loop
  remains blocked on the socket. -/
  | stillOpen : WireEnd
  /-- The connection closes; the flag is the value of `_audio_done` when
  `ConnectionClosed` reaches the handler. -/
  | closed (audioDoneAtClose : Bool) : WireEnd
deriving DecidableEq

/-- The argument dictionary passed to the `on_transcript` callback. -/
structure CbArgs where
  text : String
  isFinal : Bool
  start : Rat
  words : List Rat
deriving DecidableEq

/-- How `_receive_transcripts` ended. -/
inductive RecvEnd where
  /-- `break` on a `Metadata` message with `_audio_done` set. -/
  | metadataBreak : RecvEnd
  /-- `break` because a message arrived more than `RECEIVE_TIMEOUT` after
  the last result with `_audio_done` set. -/
  | idleBreak : RecvEnd
  /-- The trace ended with the connection open: the loop is still blocked
  on the socket, it has not returned. -/
  | waiting : RecvEnd
  /-- `ConnectionClosed` with `_audio_done` set: swallowed, clean return. -/
  | connClosedClean : RecvEnd
  /-- `ConnectionClosed` with `_audio_done` clear: re-raised. -/
  | connClosedRaise : RecvEnd
deriving DecidableEq

/-- The trailing idle check of the loop body:
`_audio_done.is_set() and now - last_result_time > RECEIVE_TIMEOUT`. -/
def idleCheck (timeout now lastRes : Rat) (done : Bool) : Bool :=
  done && decide (now - lastRes > timeout)

/-- Interpreter for `_receive_transcripts`.  `lastRes` is the running
`last_result_time`.  Returns the callback invocations in order and how the
activity ended. -/
def receiveAux (timeout : Rat) :
    List RecvEvent → Rat → WireEnd → List CbArgs × RecvEnd
  | [], _, .stillOpen => ([], .waiting)
  | [], _, .closed d => ([], if d then .connClosedClean else .connClosedRaise)
  | e :: rest, lastRes, wend =>
    match e.msg with
    | .results alts isFinal mstart =>
      -- last_result_time is refreshed before any filtering
      match alts with
      | [] => receiveAux timeout rest e.time wend
      | best :: _ =>
        let text := pyStrip best.transcript
        if text = "" then receiveAux timeout rest e.time wend
        else
          let cb : CbArgs :=
            ⟨text, isFinal, (match best.words with | [] => mstart | w :: _ => w),
             best.words⟩
          if idleCheck timeout e.time e.time e.audioDone then ([cb], .idleBreak)
          else
            let r := receiveAux timeout rest e.time wend
            (cb :: r.1, r.2)
    | .metadata =>
      if e.audioDone then ([], .metadataBreak)
      else if idleCheck timeout e.time lastRes e.audioDone then ([], .idleBreak)
      else receiveAux timeout rest lastRes wend
    | .other =>
      if idleCheck timeout e.time lastRes e.audioDone then ([], .idleBreak)
      else receiveAux timeout rest lastRes wend

/-- Model of `_receive_transcripts`: `t0` is `loop.time()` at entry. -/
def receive_transcripts (timeout t0 : Rat) (events : List RecvEvent)
    (wend : WireEnd) : List CbArgs × RecvEnd :=
  receiveAux timeout events t0 wend

/-- The callback invocation a single message produces when it is processed
without breaking: `Results` messages with a nonempty alternatives list and
nonempty stripped transcript, carrying the finality flag and the first
word's start offset when words are present, else the message's own start. -/
def cbOf (e : RecvEvent) : Option CbArgs :=
  match e.msg with
  | .results alts isFinal mstart =>
    match alts with
    | [] => none
    | best :: _ =>
      let text := pyStrip best.transcript
      if text = "" then none
      else some ⟨text, isFinal,
        (match best.words with | [] => mstart | w :: _ => w), best.words⟩
  | .metadata => none
  | .other => none

/-! ### The reconnect loop (_stream_with_reconnect, transcriber.py)

One iteration of `while attempt < MAX_RECONNECT_ATTEMPTS` opens a
connection and runs the three activities; `outcomes i` abstracts how the
`i`-th connection attempt of the run ends.  The interpreter carries the
loop's `attempt` counter together with the remaining number of loop
iterations `fuel = maxAttempts - attempt` (so `attempt < maxAttempts` is
`fuel > 0`, and the `attempt >= maxAttempts` test after `attempt += 1` is
`fuel = 1`), the index of the next connection, and the backoff delays slept
so far. -/

/-- How one connection attempt (connect + gather of the three activities)
ends. -/
inductive AttemptOutcome where
  /-- The gather returned: clean completion. -/
  | ok : AttemptOutcome
  /-- A `ConnectionClosed` / `ConnectionError` / `OSError` escaped the
  gather; the flag records whether `poll()` then saw FFmpeg exited. -/
  | drop (ffmpegExited : Bool) : AttemptOutcome
deriving DecidableEq

/-- How `_stream_with_reconnect` ended. -/
inductive StreamResult where
  /-- The gather returned: `return`, run succeeds. -/
  | completed : StreamResult
  /-- Connection lost but FFmpeg already exited: `return`, no reconnect. -/
  | ffmpegDoneStop : StreamResult
  /-- `attempt >= MAX_RECONNECT_ATTEMPTS` after a failure: re-`raise`. -/
  | fatalError : StreamResult
  /-- The `while` guard failed at the top (only possible when the
  configured maximum is 0): plain return. -/
  | noAttempts : StreamResult
deriving DecidableEq

/-- Observable history of `_stream_with_reconnect`. -/
structure StreamTrace where
  result : StreamResult
  /-- Backoff delays slept, in order. -/
  delays : List Rat
  /-- Number of connection attempts performed. -/
  conns : Nat
deriving DecidableEq

/-- Interpreter for the `_stream_with_reconnect` loop; structural in the
remaining iteration count. -/
def streamAux (base : Rat) (outcomes : Nat → AttemptOutcome) :
    Nat → Nat → Nat → List Rat → StreamTrace
  | 0, _, connIdx, delays => ⟨.noAttempts, delays, connIdx⟩
  | fuel + 1, attempt, connIdx, delays =>
    match outcomes connIdx with
    | .ok => ⟨.completed, delays, connIdx + 1⟩
    | .drop true => ⟨.ffmpegDoneStop, delays, connIdx + 1⟩
    | .drop false =>
      -- attempt += 1; the new value is attempt + 1
      if fuel = 0 then ⟨.fatalError, delays, connIdx + 1⟩
      else streamAux base outcomes fuel (attempt + 1) (connIdx + 1)
        (delays ++ [base * 2 ^ attempt])  -- RECONNECT_BASE_DELAY * 2 ** (attempt - 1)

/-- Model of `_stream_with_reconnect`. -/
def stream_with_reconnect (maxAttempts : Nat) (base : Rat)
    (outcomes : Nat → AttemptOutcome) : StreamTrace :=
  streamAux base outcomes maxAttempts 0 0 []

/-! ### Decoder termination (run and _kill_ffmpeg, transcriber.py) -/

/-- The process-level actions `_kill_ffmpeg` can perform. -/
inductive ProcAction where
  /-- `terminate()`: request graceful termination. -/
  | terminate : ProcAction
  /-- `wait_for(..., timeout=3.0)`: wait up to the bounded timeout. -/
  | waitBounded : ProcAction
  /-- `kill()`: force kill after the timeout expired. -/
  | killForce : ProcAction
deriving DecidableEq

/-- How `_stream_with_reconnect` left `run`'s `try` block. -/
inductive StreamExit where
  /-- Returned normally. -/
  | success : StreamExit
  /-- Raised (exhausted retries re-raise the last connection error). -/
  | fatalError : StreamExit
  /-- The task was cancelled from outside (`CancelledError`). -/
  | cancelled : StreamExit
deriving DecidableEq

/-- Model of `_kill_ffmpeg`: acts on the stored process handle (`none`
after a previous call cleared it), `exitsInTime` abstracts whether the
process exits within the 3-second wait.  Returns the actions performed and
the new value of `self._ffmpeg_process`. -/
def kill_ffmpeg (handle : Option Unit) (exitsInTime : Bool) :
    List ProcAction × Option Unit :=
  match handle with
  | none => ([], none)
  | some _ =>
    (.terminate :: .waitBounded ::
      (if exitsInTime then [] else [.killForce]), none)

/-- Model of `run`: `start_ffmpeg` stores a live handle, the body runs to
any of its three exits, and the `finally` block always runs `_kill_ffmpeg`
on the stored handle.  Returns the exit, the kill actions performed, and
the final stored handle. -/
def run_session (exit : StreamExit) (exitsInTime : Bool) :
    StreamExit × List ProcAction × Option Unit :=
  let handle : Option Unit := some ()   -- start_ffmpeg succeeded
  let k := kill_ffmpeg handle exitsInTime
  (exit, k.1, k.2)

/-! ## Claims -/

/-- C7: source classification is a pure, deterministic function of the
source descriptor string; strings matching none of the fixed patterns
default to the `file` classification; and a bare local path ending in
`.mp4` is classified `file`, yielding a decoder command with a
direct `-i` input argument, no external URL-resolution step, and no
reconnect flags. -/
theorem source_classification_pure_file_default
    (s : String) (resolve : String → String) (isWin32 : Bool)
    (hmp4 : lastMatches (".mp4".toList) s.toList = true)
    (h1 : firstMatches ("rtmp://".toList) s.toList = false)
    (h2 : (lastMatches (".m3u8".toList) s.toList
        || occursIn ("m3u8".toList) s.toList) = false)
    (h3 : ¬(s = "webcam" ∨ s = "0" ∨ s = "/dev/video0"))
    (h4 : is_youtube_url s = false) :
    detect_source_type s = "file" ∧
    build_ffmpeg_input_args resolve isWin32 s = ⟨["-i", s], false⟩ ∧
    "-reconnect" ∉ ffmpeg_cmd resolve isWin32 s ∧
    ∀ t : String, t = s → detect_source_type t = detect_source_type s := by
  have hs : s ≠ "-reconnect" := by
    rintro rfl
    exact absurd hmp4 (by decide)
  have hd : detect_source_type s = "file" := by
    simp only [String.toList] at h1 h2 h4
    simp [detect_source_type, String.toList, h1, h2, h3, h4]
  have hb : build_ffmpeg_input_args resolve isWin32 s = ⟨["-i", s], false⟩ := by
    simp [build_ffmpeg_input_args, hd]
  refine ⟨hd, hb, ?_, fun t ht => by rw [ht]⟩
  intro hmem
  rw [ffmpeg_cmd, hb] at hmem
  rcases List.mem_append.1 hmem with h12 | hL2
  · rcases List.mem_append.1 h12 with hL1 | hargs
    · revert hL1; decide
    · rcases List.mem_cons.1 hargs with h | h
      · revert h; decide
      · rcases List.mem_cons.1 h with h | h
        · exact hs h.symm
        · exact absurd h (List.not_mem_nil _)
  · revert hL2; decide

/-- Witness for C7 at the concrete source string `video.mp4`. -/
theorem source_classification_pure_file_default_witness :
    detect_source_type "video.mp4" = "file" ∧
    build_ffmpeg_input_args id false "video.mp4" = ⟨["-i", "video.mp4"], false⟩ ∧
    "-reconnect" ∉ ffmpeg_cmd id false "video.mp4" ∧
    ∀ t : String, t = "video.mp4" →
      detect_source_type t = detect_source_type "video.mp4" :=
  source_classification_pure_file_default "video.mp4" id false
    (by decide) (by decide) (by decide) (by decide) (by decide)

/-- C5: on every exit path of `run` — success, fatal error after exhausted
retries, or external cancellation — the `finally` block terminates the
decoder process exactly once: a graceful `terminate`, a wait bounded by the
3-second timeout, and a force `kill` only if the process is still alive
after the timeout; the handle is cleared so a second `_kill_ffmpeg` call
performs no action. -/
theorem ffmpeg_terminated_once_every_exit (exit : StreamExit)
    (exitsInTime : Bool) :
    (run_session exit exitsInTime).2.1 =
      .terminate :: .waitBounded ::
        (if exitsInTime then [] else [.killForce]) ∧
    (run_session exit exitsInTime).2.1.count .terminate = 1 ∧
    ((run_session exit exitsInTime).2.1.count .killForce
      = if exitsInTime then 0 else 1) ∧
    (run_session exit exitsInTime).2.2 = none ∧
    kill_ffmpeg (run_session exit exitsInTime).2.2 exitsInTime = ([], none) := by
  cases exitsInTime <;> cases exit <;> decide

/-- Helper for C1: one step of the exponential delay list. -/
theorem delays_step (base : Rat) (attempt n : Nat) :
    [base * 2 ^ attempt]
        ++ (List.range n).map (fun k => base * 2 ^ (attempt + 1 + k))
      = (List.range (n + 1)).map (fun k => base * 2 ^ (attempt + k)) := by
  rw [List.range_succ_eq_map, List.map_cons, List.map_map]
  simp only [List.singleton_append, Nat.add_zero]
  refine congrArg₂ _ rfl (List.map_congr_left fun a _ => ?_)
  have hx : attempt + 1 + a = attempt + (a + 1) := by omega
  simp [Function.comp, hx, Nat.succ_eq_add_one]

/-- Helper for C1: when every connection attempt fails with FFmpeg still
running, the reconnect loop with `d + 1` iterations left performs `d + 1`
further connection attempts, sleeps the exponential delays for the `d`
retries among them, and ends fatally. -/
theorem streamAux_all_drop (base : Rat) (outcomes : Nat → AttemptOutcome)
    (h : ∀ i, outcomes i = .drop false) :
    ∀ (d attempt connIdx : Nat) (delays : List Rat),
      streamAux base outcomes (d + 1) attempt connIdx delays =
        ⟨.fatalError,
         delays ++ (List.range d).map (fun k => base * 2 ^ (attempt + k)),
         connIdx + (d + 1)⟩ := by
  intro d
  induction d with
  | zero =>
    intro attempt connIdx delays
    simp [streamAux, h connIdx]
  | succ n ih =>
    intro attempt connIdx delays
    rw [show n + 1 + 1 = (n + 1) + 1 from rfl, streamAux, h connIdx]
    simp only [Nat.succ_ne_zero, if_false]
    rw [ih (attempt + 1) (connIdx + 1) (delays ++ [base * 2 ^ attempt]),
      List.append_assoc, delays_step]
    exact congrArg₂ _ rfl (by omega)

/-- C1 counterexample: with the configured maximum of 5 attempts and base
delay 1, and every connection attempt failing while FFmpeg runs, the run
performs exactly 5 connection attempts and sleeps only the 4 delays
`[1, 2, 4, 8]`: the 5th consecutive failure is already fatal, no 5th retry
(with delay 16) ever happens.  The claim as stated predicts delays for
k = 1..5 (a list of length 5) and fatality only at the 6th consecutive
failure (6 connection attempts). -/
theorem reconnect_five_failures_counterexample :
    stream_with_reconnect MAX_RECONNECT_ATTEMPTS RECONNECT_BASE_DELAY
        (fun _ => .drop false) = ⟨.fatalError, [1, 2, 4, 8], 5⟩ ∧
    (stream_with_reconnect MAX_RECONNECT_ATTEMPTS RECONNECT_BASE_DELAY
        (fun _ => .drop false)).delays.length ≠ MAX_RECONNECT_ATTEMPTS := by
  norm_num [stream_with_reconnect, streamAux, MAX_RECONNECT_ATTEMPTS,
    RECONNECT_BASE_DELAY]

/-- C1 amended: for every configured maximum `max ≥ 1` and base delay
`base ≥ 0`, under consecutive connection failures the delay slept before
the k-th retry equals `base * 2^(k-1)` for k = 1..max-1 (so delays are
monotonically non-decreasing in k), and it is the max-th consecutive
connection failure — after which exactly `max` connection attempts have
been made — that ends the run with a fatal error instead of being
retried. -/
theorem reconnect_delays_amended (maxAttempts : Nat) (base : Rat)
    (outcomes : Nat → AttemptOutcome) (hmax : 1 ≤ maxAttempts)
    (hfail : ∀ i, outcomes i = .drop false) (hbase : 0 ≤ base) :
    stream_with_reconnect maxAttempts base outcomes =
      ⟨.fatalError,
       (List.range (maxAttempts - 1)).map (fun k => base * 2 ^ k),
       maxAttempts⟩ ∧
    (stream_with_reconnect maxAttempts base outcomes).delays.Pairwise (· ≤ ·) := by
  have hm : maxAttempts = (maxAttempts - 1) + 1 := by omega
  have heq := streamAux_all_drop base outcomes hfail (maxAttempts - 1) 0 0 []
  have heq2 : stream_with_reconnect maxAttempts base outcomes =
      ⟨.fatalError,
       (List.range (maxAttempts - 1)).map (fun k => base * 2 ^ k),
       maxAttempts⟩ := by
    rw [stream_with_reconnect, hm, heq]
    simp only [List.nil_append, Nat.zero_add]
    exact congrArg₂ _ rfl (by omega)
  refine ⟨heq2, ?_⟩
  rw [heq2]
  refine List.Pairwise.map _ ?_ (List.pairwise_lt_range _)
  intro a b hab
  have h2 : (2 : Rat) ^ a ≤ 2 ^ b :=
    pow_le_pow_right₀ (by norm_num) (Nat.le_of_lt hab)
  exact mul_le_mul_of_nonneg_left h2 hbase

/-- Witness for C1 amended at max = 5, base = 1. -/
theorem reconnect_delays_amended_witness :
    stream_with_reconnect 5 1 (fun _ => .drop false) =
      ⟨.fatalError, (List.range (5 - 1)).map (fun k => (1 : Rat) * 2 ^ k), 5⟩ ∧
    (stream_with_reconnect 5 1 (fun _ => .drop false)).delays.Pairwise (· ≤ ·) :=
  reconnect_delays_amended 5 1 (fun _ => .drop false)
    (by norm_num) (fun _ => rfl) (by norm_num)

/-- Helper for C2: concatenating the chunks a read loop obtains
reconstructs the byte stream exactly, with no gaps and no duplicates. -/
theorem chunksOfAux_join (n : Nat) (hn : 0 < n) :
    ∀ (fuel : Nat) (data : List Nat), data.length ≤ fuel →
      (chunksOfAux n fuel data).flatten = data := by
  intro fuel
  induction fuel with
  | zero =>
    intro data hlen
    rw [List.length_eq_zero.1 (Nat.le_zero.1 hlen)]
    simp [chunksOfAux]
  | succ m ih =>
    intro data hlen
    match data with
    | [] => simp [chunksOfAux]
    | c :: cs =>
      rw [chunksOfAux, List.flatten_cons, ih ((c :: cs).drop n) (by
        simp only [List.length_drop, List.length_cons] at *
        omega)]
      exact List.take_append_drop n (c :: cs)

/-- Helper for C2: when the websocket accepts every send, the loop forwards
every chunk, in order, and exhausts the sequence. -/
theorem sendLoopAux_all_sent (chunks : List (List Nat)) :
    ∀ i, sendLoopAux (fun _ => .sent) chunks i = (chunks, .exhausted) := by
  induction chunks with
  | nil => intro i; rfl
  | cons c cs ih => intro i; simp [sendLoopAux, ih (i + 1)]

/-- Helper for C2: the chunks delivered by `_send_audio` are always exactly
the first component of its loop result, on every exit. -/
theorem send_audio_sentChunks (chunks : List (List Nat)) (ev : Nat → SendEvent)
    (ws : Bool) :
    (send_audio chunks ev ws).sentChunks = (sendLoopAux ev chunks 0).1 := by
  rw [send_audio]
  cases (sendLoopAux ev chunks 0).2 <;> rfl

/-- Helper for C2: if the websocket accepts the first `d` sends and the next
send raises a connection error, exactly the first `d - i` chunks are
delivered starting from index `i`. -/
theorem sendLoopAux_fail_after (d : Nat) (chunks : List (List Nat)) :
    ∀ i, sendLoopAux (fun j => if j < d then .sent else .connErr) chunks i =
      (chunks.take (d - i),
       if chunks.length ≤ d - i then .exhausted else .connError) := by
  induction chunks with
  | nil => intro i; simp [sendLoopAux]
  | cons c cs ih =>
    intro i
    by_cases hi : i < d
    · have hdi : d - i = (d - (i + 1)) + 1 := by omega
      rw [sendLoopAux]
      simp only [hi, if_pos, ih (i + 1), hdi, List.take_succ_cons,
        List.length_cons]
      exact congrArg₂ _ rfl (by
        by_cases hc : cs.length ≤ d - (i + 1) <;> simp [hc, Nat.succ_le_succ_iff])
    · have hdi : d - i = 0 := by omega
      rw [sendLoopAux]
      simp [hi, hdi]

/-- Helper for C2: across reconnect attempts reading from the one shared
decoder pipe, the concatenation of everything delivered is a sublist of the
produced chunk sequence: order preserved, nothing delivered twice. -/
theorem run_attempts_join_sublist (specs : List (Nat × Nat)) :
    ∀ chunks : List (List Nat),
      (run_attempts chunks specs).flatten.Sublist chunks := by
  induction specs with
  | nil => intro chunks; simp [run_attempts]
  | cons de specs ih =>
    intro chunks
    rcases de with ⟨d, e⟩
    rw [run_attempts, List.flatten_cons]
    have h1 : (run_attempts (chunks.drop (d + e)) specs).flatten.Sublist
        (chunks.drop (d + e)) := ih _
    have h2 : (chunks.drop (d + e)).Sublist (chunks.drop d) := by
      have hde := List.drop_sublist e (chunks.drop d)
      rw [List.drop_drop] at hde
      exact hde
    have h3 := (h1.trans h2).append_left (chunks.take d)
    rw [List.take_append_drop] at h3
    exact h3

/-- C2: every byte of decoder output is forwarded exactly once and in
strict production order.  (1) Chunking the decoder's byte stream loses and
duplicates nothing; (2) in a run with zero reconnects (every send
accepted), the concatenation of the binary frames sent equals the
concatenation of the decoder's output; (3) within one attempt the frames
delivered before a connection drop are exactly an initial segment of the
frames read; (4) across reconnect attempts over the single shared decoder
pipe, whose read position is never reset, the frames delivered form a
sublist of the produced frames: no frame is ever resent. -/
theorem frames_forwarded_exactly_once (n : Nat) (data : List Nat)
    (chunks : List (List Nat)) (specs : List (Nat × Nat)) (d : Nat)
    (ws : Bool) (hn : 0 < n) :
    (chunksOf n data).flatten = data ∧
    (send_audio (chunksOf n data) (fun _ => .sent) ws).sentChunks.flatten = data ∧
    (send_audio chunks (fun j => if j < d then .sent else .connErr)
        ws).sentChunks = chunks.take d ∧
    (run_attempts chunks specs).flatten.Sublist chunks := by
  have hjoin : (chunksOf n data).flatten = data :=
    chunksOfAux_join n hn data.length data le_rfl
  refine ⟨hjoin, ?_, ?_, run_attempts_join_sublist specs chunks⟩
  · rw [send_audio_sentChunks, sendLoopAux_all_sent]
    exact hjoin
  · rw [send_audio_sentChunks, sendLoopAux_fail_after]
    simp

/-- Witness for C2 at concrete data, chunk size 2, a drop after 1 frame. -/
theorem frames_forwarded_exactly_once_witness :
    (chunksOf 2 [1, 2, 3, 4, 5]).flatten = [1, 2, 3, 4, 5] ∧
    (send_audio (chunksOf 2 [1, 2, 3, 4, 5]) (fun _ => .sent)
        true).sentChunks.flatten = [1, 2, 3, 4, 5] ∧
    (send_audio [[1], [2], [3]] (fun j => if j < 1 then .sent else .connErr)
        true).sentChunks = [[1], [2], [3]].take 1 ∧
    (run_attempts [[1], [2], [3]] [(1, 1)]).flatten.Sublist [[1], [2], [3]] :=
  frames_forwarded_exactly_once 2 [1, 2, 3, 4, 5] [[1], [2], [3]] [(1, 1)] 1
    true (by decide)

/-- Helper for C8: while the pause flag is observed set, the loop performs
no read, only 0.05s re-check sleeps, and resumes with unchanged state. -/
theorem readLoopAux_pause (target : Rat) :
    ∀ (m : Nat) (rest : List Step) (ce : Nat),
      readLoopAux target (List.replicate m .pauseSet ++ rest) ce =
        ⟨(readLoopAux target rest ce).yielded,
         List.replicate m (SleepKind.pauseWait, 1/20)
           ++ (readLoopAux target rest ce).sleeps,
         (readLoopAux target rest ce).reads,
         (readLoopAux target rest ce).reason⟩ := by
  intro m
  induction m with
  | zero => intro rest ce; simp
  | succ k ih =>
    intro rest ce
    rw [List.replicate_succ, List.cons_append, readLoopAux, ih rest ce]
    simp [List.replicate_succ]

/-- C8: while the pause signal is set the frame-production loop performs no
read of decoder output (the read count is unchanged: zero frames consumed
during the paused interval), re-checks the signal with a 0.05s (50 ms)
sleep per check until it is cleared, and once cleared the very same frames
are produced next, in the same order, with the same eventual outcome. -/
theorem pause_suspends_without_reads (chunkSize : Nat) (speed : Rat)
    (m : Nat) (rest : List Step) :
    (read_audio_chunks chunkSize speed (List.replicate m .pauseSet ++ rest)).reads
      = (read_audio_chunks chunkSize speed rest).reads ∧
    (read_audio_chunks chunkSize speed (List.replicate m .pauseSet ++ rest)).yielded
      = (read_audio_chunks chunkSize speed rest).yielded ∧
    (read_audio_chunks chunkSize speed (List.replicate m .pauseSet ++ rest)).sleeps
      = List.replicate m (SleepKind.pauseWait, 1/20)
          ++ (read_audio_chunks chunkSize speed rest).sleeps ∧
    (read_audio_chunks chunkSize speed (List.replicate m .pauseSet ++ rest)).reason
      = (read_audio_chunks chunkSize speed rest).reason := by
  rw [read_audio_chunks, read_audio_chunks,
    readLoopAux_pause (target_interval chunkSize speed) m rest 0]
  exact ⟨rfl, rfl, rfl, rfl⟩

/-- Helper for C9: with a non-positive pacing interval no pacing sleep is
ever performed, whatever the trace. -/
theorem readLoopAux_no_pacing (target : Rat) (htarget : ¬target > 0) :
    ∀ (steps : List Step) (ce : Nat),
      ∀ p ∈ (readLoopAux target steps ce).sleeps, p.1 ≠ SleepKind.pacing := by
  intro steps
  induction steps with
  | nil => intro ce p hp; simp [readLoopAux] at hp
  | cons st rest ih =>
    intro ce p hp
    match st with
    | .pauseSet =>
      rw [readLoopAux] at hp
      rcases List.mem_cons.1 hp with h | h
      · rw [h]; decide
      · exact ih ce p h
    | .readErr => simp [readLoopAux] at hp
    | .readEmpty alive =>
      rw [readLoopAux] at hp
      by_cases ha : alive
      · simp only [ha, if_true] at hp
        by_cases hce : ce + 1 > 100
        · simp [hce] at hp
        · simp only [hce, if_false] at hp
          rcases List.mem_cons.1 hp with h | h
          · rw [h]; decide
          · exact ih (ce + 1) p h
      · simp [ha] at hp
    | .readOk c e =>
      rw [readLoopAux] at hp
      simp only [htarget, if_false, List.nil_append] at hp
      exact ih 0 p hp

/-- Helper for C9: on a trace of successful reads with a positive pacing
interval, the pacing sleeps are exactly `target - elapsed` for each frame
whose processing left a positive remainder. -/
theorem readLoopAux_pacing (target : Rat) (htarget : target > 0) :
    ∀ (steps : List Step) (ce : Nat),
      (∀ st ∈ steps, ∃ c e, st = .readOk c e) →
      pacingDurations (readLoopAux target steps ce) =
        steps.filterMap (fun st =>
          match st with
          | .readOk _ e => if target - e > 0 then some (target - e) else none
          | _ => none) := by
  intro steps
  induction steps with
  | nil => intro ce _; rfl
  | cons st rest ih =>
    intro ce hok
    obtain ⟨c, e, rfl⟩ := hok _ (List.mem_cons_self st rest)
    have hrest : ∀ x ∈ rest, ∃ c e, x = Step.readOk c e :=
      fun x hx => hok x (List.mem_cons_of_mem _ hx)
    rw [readLoopAux, List.filterMap_cons]
    simp only [htarget, if_true]
    by_cases hrem : target - e > 0
    · simp only [hrem, if_true]
      rw [show pacingDurations
          ⟨c :: (readLoopAux target rest 0).yielded,
           [(SleepKind.pacing, target - e)] ++ (readLoopAux target rest 0).sleeps,
           (readLoopAux target rest 0).reads + 1,
           (readLoopAux target rest 0).reason⟩
        = (target - e) :: pacingDurations (readLoopAux target rest 0) from rfl]
      rw [ih 0 hrest]
    · simp only [hrem, if_false]
      rw [show pacingDurations
          ⟨c :: (readLoopAux target rest 0).yielded,
           [] ++ (readLoopAux target rest 0).sleeps,
           (readLoopAux target rest 0).reads + 1,
           (readLoopAux target rest 0).reason⟩
        = pacingDurations (readLoopAux target rest 0) from rfl]
      rw [ih 0 hrest]

/-- C9: the pacing interval is computed from the configured frame size, the
sample rate, the 2-byte sample width and the channel count as
`(chunkSize / (SAMPLE_RATE * 2 * CHANNELS)) / speed`; on a trace of
successful reads each frame is followed by a sleep of exactly the remaining
difference `interval - elapsed` whenever that remainder is positive (so
frames are emitted no faster than one per `duration / speed`); and a speed
factor of 0 disables pacing entirely: no pacing sleep ever occurs. -/
theorem pacing_sleep_spec (chunkSize : Nat) (speed : Rat) (steps : List Step) :
    (speed = 0 →
      ∀ p ∈ (read_audio_chunks chunkSize speed steps).sleeps,
        p.1 ≠ SleepKind.pacing) ∧
    (0 < speed → target_interval chunkSize speed
      = (chunkSize : Rat) / ((SAMPLE_RATE : Rat) * 2 * (CHANNELS : Rat)) / speed) ∧
    (0 < chunkSize → 0 < speed → (∀ st ∈ steps, ∃ c e, st = .readOk c e) →
      pacingDurations (read_audio_chunks chunkSize speed steps) =
        steps.filterMap (fun st =>
          match st with
          | .readOk _ e =>
            if target_interval chunkSize speed - e > 0
            then some (target_interval chunkSize speed - e) else none
          | _ => none)) := by
  refine ⟨?_, ?_, ?_⟩
  · intro hzero
    subst hzero
    have htarget : ¬target_interval chunkSize 0 > 0 := by
      rw [target_interval]
      norm_num
    exact readLoopAux_no_pacing _ htarget steps 0
  · intro hpos
    rw [target_interval]
    simp [hpos]
  · intro hcs hpos hok
    have htarget : target_interval chunkSize speed > 0 := by
      rw [target_interval]
      simp only [hpos, if_pos]
      have h1 : (0 : Rat) < (chunkSize : Rat) := by exact_mod_cast hcs
      have h2 : (0 : Rat) < (SAMPLE_RATE : Rat) * 2 * (CHANNELS : Rat) := by
        norm_num [SAMPLE_RATE, CHANNELS]
      positivity
    exact readLoopAux_pacing _ htarget steps 0 hok

/-- Witness for C9: speed 0 performs no pacing sleep; speed 2 on one frame
of elapsed time 1/100 sleeps the remaining 1/8 - 1/100. -/
theorem pacing_sleep_spec_witness :
    (∀ p ∈ (read_audio_chunks 8000 0 [Step.readOk [1] (1/100)]).sleeps,
      p.1 ≠ SleepKind.pacing) ∧
    pacingDurations (read_audio_chunks 8000 2 [Step.readOk [1] (1/100)]) =
      [Step.readOk [1] (1/100)].filterMap (fun st =>
        match st with
        | .readOk _ e =>
          if target_interval 8000 2 - e > 0
          then some (target_interval 8000 2 - e) else none
        | _ => none) :=
  ⟨(pacing_sleep_spec 8000 0 [Step.readOk [1] (1/100)]).1 rfl,
   (pacing_sleep_spec 8000 2 [Step.readOk [1] (1/100)]).2.2 (by norm_num)
     (by norm_num)
     (fun st hst => ⟨[1], 1/100, by
        rcases List.mem_cons.1 hst with h | h
        · exact h
        · exact absurd h (List.not_mem_nil st)⟩)⟩

/-- Helper for C3: while empty reads with the decoder alive stay within the
bound, each is retried after a 0.01s sleep, counting one read each, and the
loop then continues with the grown `consecutive_empty` counter. -/
theorem readLoopAux_stall_retries (target : Rat) :
    ∀ (m : Nat) (rest : List Step) (ce : Nat), ce + m ≤ 100 →
      readLoopAux target (List.replicate m (.readEmpty true) ++ rest) ce =
        ⟨(readLoopAux target rest (ce + m)).yielded,
         List.replicate m (SleepKind.stallWait, 1/100)
           ++ (readLoopAux target rest (ce + m)).sleeps,
         m + (readLoopAux target rest (ce + m)).reads,
         (readLoopAux target rest (ce + m)).reason⟩ := by
  intro m
  induction m with
  | zero => intro rest ce _; simp
  | succ k ih =>
    intro rest ce hce
    rw [List.replicate_succ, List.cons_append, readLoopAux]
    have h1 : ¬ce + 1 > 100 := by omega
    simp only [if_true, h1, if_false]
    rw [ih rest (ce + 1) (by omega)]
    have hck : ce + 1 + k = ce + (k + 1) := by omega
    rw [hck]
    simp only [ReadLoopOut.mk.injEq]
    refine ⟨trivial, by simp [List.replicate_succ], by omega, trivial⟩

/-- Helper for C3: the 101st consecutive empty read with the decoder alive
aborts the sequence: 100 retry sleeps were performed, 101 reads done, and
the loop breaks with the (internal, logged-only) stall-abort reason. -/
theorem readLoopAux_stall_abort (target : Rat) (rest : List Step) :
    readLoopAux target (List.replicate 101 (.readEmpty true) ++ rest) 0 =
      ⟨[], List.replicate 100 (SleepKind.stallWait, 1/100), 101,
       some .stallAbort⟩ := by
  have hsplit : List.replicate 101 (Step.readEmpty true) ++ rest
      = List.replicate 100 (Step.readEmpty true)
        ++ (Step.readEmpty true :: rest) := by
    rw [show (101 : Nat) = 100 + 1 from rfl, List.replicate_succ']
    simp
  rw [hsplit, readLoopAux_stall_retries target 100 (Step.readEmpty true :: rest)
    0 (by omega)]
  rw [show readLoopAux target (Step.readEmpty true :: rest) 100
      = ⟨[], [], 1, some .stallAbort⟩ from by simp [readLoopAux]]
  simp

/-- Helper for C3: an empty read coinciding with decoder exit terminates
the sequence immediately and normally. -/
theorem readLoopAux_eof (target : Rat) (rest : List Step) (ce : Nat) :
    readLoopAux target (.readEmpty false :: rest) ce =
      ⟨[], [], 1, some .eofExit⟩ := by
  simp [readLoopAux]

/-- C3 counterexample to the claim that exceeding the retry bound is a
fatal read error surfaced to the caller: on 101 consecutive empty reads
with the decoder alive, `read_audio_chunks` merely breaks (internal reason
`stallAbort`, a log line), and `_send_audio` — the only caller — observes
exactly the same outcome as on a normal end-of-stream: the audio-done flag
is set, `CloseStream` is sent, and no error is raised.  No fatal read error
reaches the caller. -/
theorem stall_abort_not_surfaced_counterexample :
    (read_audio_chunks CHUNK_SIZE 1
        (List.replicate 101 (Step.readEmpty true))).reason
      = some .stallAbort ∧
    send_audio_from_reader CHUNK_SIZE 1
        (List.replicate 101 (Step.readEmpty true)) (fun _ => .sent) true
      = ⟨[], true, true, false⟩ ∧
    send_audio_from_reader CHUNK_SIZE 1 [Step.readEmpty false]
        (fun _ => .sent) true = ⟨[], true, true, false⟩ ∧
    send_audio_from_reader CHUNK_SIZE 1
        (List.replicate 101 (Step.readEmpty true)) (fun _ => .sent) true
      = send_audio_from_reader CHUNK_SIZE 1 [Step.readEmpty false]
          (fun _ => .sent) true := by
  have habort := readLoopAux_stall_abort (target_interval CHUNK_SIZE 1)
    ([] : List Step)
  rw [List.append_nil] at habort
  have h1 : read_audio_chunks CHUNK_SIZE 1
      (List.replicate 101 (Step.readEmpty true))
      = ⟨[], List.replicate 100 (SleepKind.stallWait, 1/100), 101,
         some .stallAbort⟩ := habort
  have h2 : read_audio_chunks CHUNK_SIZE 1 [Step.readEmpty false]
      = ⟨[], [], 1, some .eofExit⟩ :=
    readLoopAux_eof (target_interval CHUNK_SIZE 1) [] 0
  refine ⟨by rw [h1], ?_, ?_, ?_⟩ <;>
    simp [send_audio_from_reader, h1, h2, send_audio, sendLoopAux]

/-- C3 amended: a zero-byte read while the decoder is alive is retried up
to 100 times, each retry after a 0.01s sleep; the 101st consecutive empty
read aborts the frame sequence — but only with a logged message, not an
error: the caller observes a normal end of stream, indistinguishable from
decoder exit (audio-done set, `CloseStream` sent, nothing raised); a
zero-byte read coinciding with decoder exit terminates the sequence
normally with no error. -/
theorem stall_retry_bounded_amended (chunkSize : Nat) (speed : Rat)
    (rest : List Step) (ev : Nat → SendEvent) (ws : Bool) (m ce : Nat)
    (hm : ce + m ≤ 100) :
    readLoopAux (target_interval chunkSize speed)
        (List.replicate m (.readEmpty true) ++ rest) ce =
      ⟨(readLoopAux (target_interval chunkSize speed) rest (ce + m)).yielded,
       List.replicate m (SleepKind.stallWait, 1/100)
         ++ (readLoopAux (target_interval chunkSize speed) rest (ce + m)).sleeps,
       m + (readLoopAux (target_interval chunkSize speed) rest (ce + m)).reads,
       (readLoopAux (target_interval chunkSize speed) rest (ce + m)).reason⟩ ∧
    read_audio_chunks chunkSize speed
        (List.replicate 101 (.readEmpty true) ++ rest) =
      ⟨[], List.replicate 100 (SleepKind.stallWait, 1/100), 101,
       some .stallAbort⟩ ∧
    read_audio_chunks chunkSize speed (.readEmpty false :: rest) =
      ⟨[], [], 1, some .eofExit⟩ ∧
    send_audio_from_reader chunkSize speed
        (List.replicate 101 (.readEmpty true) ++ rest) ev ws
      = ⟨[], true, ws, false⟩ ∧
    send_audio_from_reader chunkSize speed (.readEmpty false :: rest) ev ws
      = ⟨[], true, ws, false⟩ := by
  have habort := readLoopAux_stall_abort (target_interval chunkSize speed) rest
  have heof := readLoopAux_eof (target_interval chunkSize speed) rest 0
  refine ⟨readLoopAux_stall_retries _ m rest ce hm, habort, heof, ?_, ?_⟩ <;>
    simp [send_audio_from_reader, read_audio_chunks, habort, heof, send_audio,
      sendLoopAux]

/-- Witness for C3 amended: 3 empty reads from counter 0, then the
concrete abort and end-of-stream outcomes. -/
theorem stall_retry_bounded_amended_witness :
    readLoopAux (target_interval 8000 1)
        (List.replicate 3 (.readEmpty true) ++ [Step.readEmpty false]) 0 =
      ⟨(readLoopAux (target_interval 8000 1) [Step.readEmpty false] (0 + 3)).yielded,
       List.replicate 3 (SleepKind.stallWait, 1/100)
         ++ (readLoopAux (target_interval 8000 1) [Step.readEmpty false] (0 + 3)).sleeps,
       3 + (readLoopAux (target_interval 8000 1) [Step.readEmpty false] (0 + 3)).reads,
       (readLoopAux (target_interval 8000 1) [Step.readEmpty false] (0 + 3)).reason⟩ ∧
    read_audio_chunks 8000 1
        (List.replicate 101 (.readEmpty true) ++ [Step.readEmpty false]) =
      ⟨[], List.replicate 100 (SleepKind.stallWait, 1/100), 101,
       some .stallAbort⟩ ∧
    read_audio_chunks 8000 1 (.readEmpty false :: [Step.readEmpty false]) =
      ⟨[], [], 1, some .eofExit⟩ ∧
    send_audio_from_reader 8000 1
        (List.replicate 101 (.readEmpty true) ++ [Step.readEmpty false])
        (fun _ => .sent) true = ⟨[], true, true, false⟩ ∧
    send_audio_from_reader 8000 1 (.readEmpty false :: [Step.readEmpty false])
        (fun _ => .sent) true = ⟨[], true, true, false⟩ :=
  stall_retry_bounded_amended 8000 1 [Step.readEmpty false] (fun _ => .sent)
    true 3 0 (by omega)

/-- Helper for C10: if the websocket accepts the first `d` sends and the
next send raises a non-connection exception, the loop delivers the first
`d - i` chunks from index `i` and ends with the exception swallowed. -/
theorem sendLoopAux_swallow_after (d : Nat) (chunks : List (List Nat)) :
    ∀ i, sendLoopAux (fun j => if j < d then .sent else .otherErr) chunks i =
      (chunks.take (d - i),
       if chunks.length ≤ d - i then .exhausted else .swallowedErr) := by
  induction chunks with
  | nil => intro i; simp [sendLoopAux]
  | cons c cs ih =>
    intro i
    by_cases hi : i < d
    · have hdi : d - i = (d - (i + 1)) + 1 := by omega
      rw [sendLoopAux]
      simp only [hi, if_pos, ih (i + 1), hdi, List.take_succ_cons,
        List.length_cons]
      exact congrArg₂ _ rfl (by
        by_cases hc : cs.length ≤ d - (i + 1) <;> simp [hc, Nat.succ_le_succ_iff])
    · have hdi : d - i = 0 := by omega
      rw [sendLoopAux]
      simp [hi, hdi]

/-- C10: when the send activity raises an exception that is not a
connection-level error after `d` chunks were forwarded, the exception is
swallowed: the audio-done flag is still set, the end-of-audio control
message is still sent exactly when the connection is open, no exception
propagates, and the outcome of `_send_audio` is identical to that of a run
whose audio source ended normally after those same `d` chunks. -/
theorem send_error_swallowed_success (chunks : List (List Nat)) (d : Nat)
    (ws : Bool) (hd : d < chunks.length) :
    send_audio chunks (fun j => if j < d then .sent else .otherErr) ws
      = ⟨chunks.take d, true, ws, false⟩ ∧
    send_audio (chunks.take d) (fun _ => .sent) ws
      = ⟨chunks.take d, true, ws, false⟩ ∧
    send_audio chunks (fun j => if j < d then .sent else .otherErr) ws
      = send_audio (chunks.take d) (fun _ => .sent) ws ∧
    (send_audio chunks (fun j => if j < d then .sent else .otherErr)
        ws).raisedConn = false := by
  have h1 : send_audio chunks (fun j => if j < d then .sent else .otherErr) ws
      = ⟨chunks.take d, true, ws, false⟩ := by
    rw [send_audio, sendLoopAux_swallow_after]
    simp [Nat.not_le.2 hd]
  have h2 : send_audio (chunks.take d) (fun _ => .sent) ws
      = ⟨chunks.take d, true, ws, false⟩ := by
    rw [send_audio, sendLoopAux_all_sent]
  exact ⟨h1, h2, by rw [h1, h2], by rw [h1]⟩

/-- Witness for C10: the send of the second chunk raises a non-connection
error; the outcome equals the normal-completion outcome on one chunk. -/
theorem send_error_swallowed_success_witness :
    send_audio [[1], [2], [3]] (fun j => if j < 1 then .sent else .otherErr)
        true = ⟨[[1], [2], [3]].take 1, true, true, false⟩ ∧
    send_audio ([[1], [2], [3]].take 1) (fun _ => .sent) true
      = ⟨[[1], [2], [3]].take 1, true, true, false⟩ ∧
    send_audio [[1], [2], [3]] (fun j => if j < 1 then .sent else .otherErr)
        true = send_audio ([[1], [2], [3]].take 1) (fun _ => .sent) true ∧
    (send_audio [[1], [2], [3]] (fun j => if j < 1 then .sent else .otherErr)
        true).raisedConn = false :=
  send_error_swallowed_success [[1], [2], [3]] 1 true (by decide)

/-- Helper for C6: when the receive loop processes an entire message trace
without breaking (it is still waiting at the end of the trace), the
callback was invoked exactly once per well-formed nonempty-text result
message, in arrival order, with the specified fields. -/
theorem receiveAux_waiting (timeout : Rat) :
    ∀ (events : List RecvEvent) (lastRes : Rat) (wend : WireEnd),
      (receiveAux timeout events lastRes wend).2 = .waiting →
      (receiveAux timeout events lastRes wend).1 = events.filterMap cbOf := by
  intro events
  induction events with
  | nil =>
    intro lastRes wend h
    match wend with
    | .stillOpen => rfl
    | .closed d => cases d <;> simp [receiveAux] at h
  | cons e rest ih =>
    intro lastRes wend h
    rcases e with ⟨t, msg, done⟩
    match msg with
    | .results alts isFinal mstart =>
      match alts with
      | [] =>
        rw [receiveAux] at h ⊢
        rw [List.filterMap_cons, show cbOf ⟨t, .results [] isFinal mstart, done⟩
          = none from rfl]
        exact ih t wend h
      | best :: alts2 =>
        by_cases htext : pyStrip best.transcript = ""
        · rw [receiveAux] at h ⊢
          simp only [htext, if_pos] at h ⊢
          rw [List.filterMap_cons, show
            cbOf ⟨t, .results (best :: alts2) isFinal mstart, done⟩ = none from
            by simp [cbOf, htext]]
          exact ih t wend h
        · rw [receiveAux] at h ⊢
          simp only [htext, if_neg, if_false] at h ⊢
          by_cases hidle : idleCheck timeout t t done = true
          · rw [if_pos hidle] at h
            exact absurd h (by simp)
          · rw [if_neg hidle] at h ⊢
            rw [List.filterMap_cons, show
              cbOf ⟨t, .results (best :: alts2) isFinal mstart, done⟩
                = some ⟨pyStrip best.transcript, isFinal,
                  (match best.words with | [] => mstart | w :: _ => w),
                  best.words⟩ from by simp [cbOf, htext]]
            exact congrArg₂ _ rfl (ih t wend h)
    | .metadata =>
      match done with
      | true =>
        rw [receiveAux] at h
        exact absurd h (by simp)
      | false =>
        rw [receiveAux] at h ⊢
        simp only [Bool.false_eq_true, if_false, idleCheck, Bool.false_and] at h ⊢
        rw [List.filterMap_cons, show cbOf ⟨t, .metadata, false⟩ = none from rfl]
        exact ih lastRes wend h
    | .other =>
      by_cases hidle : idleCheck timeout t lastRes done = true
      · rw [receiveAux, if_pos hidle] at h
        exact absurd h (by simp)
      · rw [receiveAux, if_neg hidle] at h ⊢
        rw [List.filterMap_cons, show cbOf ⟨t, .other, done⟩ = none from rfl]
        exact ih lastRes wend h

/-- C6: in any execution of the receive activity that processes its inbound
message sequence to completion, the callback is invoked exactly once per
well-formed result message with nonempty (stripped) transcript text, in
arrival order, carrying the finality flag and a start offset equal to the
first word's start offset when the words list is nonempty and the message's
own start offset otherwise; and a `Metadata` message processed with the
audio-done flag set makes the receive activity return immediately as clean
completion, with no further callback. -/
theorem callback_per_wellformed_result (timeout t0 : Rat)
    (events : List RecvEvent) (wend : WireEnd)
    (h : (receive_transcripts timeout t0 events wend).2 = .waiting) :
    (receive_transcripts timeout t0 events wend).1 = events.filterMap cbOf ∧
    ∀ (t lastRes : Rat) (rest : List RecvEvent) (wend2 : WireEnd),
      receiveAux timeout (⟨t, .metadata, true⟩ :: rest) lastRes wend2
        = ([], .metadataBreak) := by
  refine ⟨receiveAux_waiting timeout events t0 wend h, ?_⟩
  intro t lastRes rest wend2
  simp [receiveAux]

/-- Witness for C6 on a concrete trace: one interim result with words, one
result with blank text (skipped), one final result without words. -/
theorem callback_per_wellformed_result_witness :
    (receive_transcripts 30 0
        [⟨1, .results [⟨" hi ", [2, 3]⟩] false 5, false⟩,
         ⟨2, .results [⟨"   ", []⟩] false 6, false⟩,
         ⟨3, .results [⟨"bye", []⟩] true 7, true⟩] .stillOpen).1
      = [⟨1, .results [⟨" hi ", [2, 3]⟩] false 5, false⟩,
         ⟨2, .results [⟨"   ", []⟩] false 6, false⟩,
         ⟨3, .results [⟨"bye", []⟩] true 7, true⟩].filterMap cbOf ∧
    ∀ (t lastRes : Rat) (rest : List RecvEvent) (wend2 : WireEnd),
      receiveAux 30 (⟨t, .metadata, true⟩ :: rest) lastRes wend2
        = ([], .metadataBreak) :=
  callback_per_wellformed_result 30 0
    [⟨1, .results [⟨" hi ", [2, 3]⟩] false 5, false⟩,
     ⟨2, .results [⟨"   ", []⟩] false 6, false⟩,
     ⟨3, .results [⟨"bye", []⟩] true 7, true⟩] .stillOpen (by
      have h1 : pyStrip " hi " = "hi" := by decide
      have h2 : pyStrip "   " = "" := by decide
      have h3 : pyStrip "bye" = "bye" := by decide
      norm_num +decide [receive_transcripts, receiveAux, idleCheck, h1, h2, h3])

/-- C4 counterexample: audio-done is set and the last result was at time 0;
no message of any kind arrives during the whole idle window (0, 40), far
beyond the 30-second `RECEIVE_TIMEOUT`.  The claim predicts the receive
activity returns (clean completion) once the timeout elapses, hence before
time 40 and with no further callback.  In the code the idle check only runs
when a message arrives: at time 40 the activity is still running, processes
the late result and invokes the callback, and afterwards is still blocked
waiting (it has not returned). -/
theorem idle_timeout_requires_message_counterexample :
    receive_transcripts RECEIVE_TIMEOUT 0
        [⟨40, .results [⟨"late", []⟩] true 0, true⟩] .stillOpen
      = ([⟨"late", true, 0, []⟩], .waiting) := by
  have hstrip : pyStrip "late" = "late" := by decide
  norm_num +decide [receive_transcripts, receiveAux, idleCheck,
    RECEIVE_TIMEOUT, hstrip]

/-- C4 amended: the idle timeout is evaluated only when a message arrives.
When the audio-done flag is set, the receive activity returns (clean
completion) on the first non-result message that arrives more than
`RECEIVE_TIMEOUT` after the last result; if no further message arrives, the
activity does not return on its own — it stays blocked on the socket (until
the service closes the connection). -/
theorem idle_timeout_on_next_message_amended (timeout t lastRes : Rat)
    (rest : List RecvEvent) (wend : WireEnd) (hgap : t - lastRes > timeout) :
    receiveAux timeout (⟨t, .other, true⟩ :: rest) lastRes wend
      = ([], .idleBreak) ∧
    receiveAux timeout [] lastRes .stillOpen = ([], .waiting) := by
  constructor
  · rw [receiveAux]
    simp [idleCheck, hgap]
  · rfl

/-- Witness for C4 amended: a non-result message at time 40 with the last
result at time 0 and a 30-second timeout. -/
theorem idle_timeout_on_next_message_amended_witness :
    receiveAux 30 [⟨40, .other, true⟩] 0 .stillOpen = ([], .idleBreak) ∧
    receiveAux 30 [] 0 .stillOpen = ([], .waiting) :=
  idle_timeout_on_next_message_amended 30 40 0 [] .stillOpen (by norm_num)
